import Mathlib

/-!
Shallow embedding of the log-structured key-value store in
`src/datastore/db.go` (package `datastore`).

Modelling choices, recorded once here:

* A segment file's content is represented as the `List entry` of the
  records it holds, in append (file) order; byte offsets are recovered
  from the records via `encLen`.  The record codec itself
  (`entry.Encode` / `entry.DecodeFromReader`) is not under `src/`; its
  size and framing behaviour are modelled from the spec (see `encLen`,
  `decodeAt`).
* The directory is a `List (FileName × List entry)` in creation order
  (`os.ReadDir` lists names in sorted order; in every state built here
  the creation order of the three possible names coincides with the
  sorted order, and `recoverDb` re-sorts by segment id anyway).
* `db.out` in the source always aliases the final element of
  `db.segments` (it is set that way in `recover`, `createNewSegment`
  and `mergeSegments`), so the embedding represents the write target
  implicitly as the last element of `segments` (`lastSeg`).
* Goroutines, mutexes and channels are serialized away: `Put` hands the
  request to the writer goroutine which runs `doPut` under
  `writeMutex`, so a serial `Put` is exactly `doPut`; the
  fire-and-forget `go db.mergeSegments()` at the end of `doPut` is
  modelled as a separate state transition `mergeSegments` that may be
  interleaved after the put.
* Go `map[string]T` is modelled as an association list where insertion
  conses to the front and lookup takes the first hit, which gives
  exactly the overwrite semantics used by the source (no deletes).
* I/O failures are modelled where a claim depends on them: `doPutF`
  takes a flag stating that the file append returns an error, and
  `mergeSegmentsF` takes a predicate saying which files `os.Open` can
  open (an unreadable or absent source segment is skipped with
  `continue`, exactly as in the source).  All other file operations
  succeed in the states considered, matching the source's happy path.
-/

namespace KV

/-- A decoded key/value record.  The codec file is not under `src/`;
only the decoded fields matter for the embedding. -/
structure entry where
  key : String
  value : String
deriving DecidableEq, Repr

/-- Modelled from the spec: the record codec (`entry.Encode`, absent from
`src/`) frames a record as explicit length prefixes (total length, key
length, value length) followed by the key and value bytes, so the
encoded size of a record is a fixed 12-byte header plus the key and
value lengths.  Only determinism and exact-size reporting are used by
the proofs. -/
def encLen (e : entry) : Nat := 12 + e.key.length + e.value.length

/-- Total byte size of a file holding `l` in order. -/
def encLenSum (l : List entry) : Nat := l.foldr (fun e t => encLen e + t) 0

/-- Modelled from the spec: seeking to byte `off` in a file holding `l`
and decoding one record (`entry.DecodeFromReader`, absent from `src/`)
succeeds exactly when `off` is the exact start offset of a record, and
returns that record; any other offset is a decode failure. -/
def decodeAt : List entry → Nat → Option entry
  | [], _ => none
  | e :: rest, off =>
    if off = 0 then some e
    else if off < encLen e then none
    else decodeAt rest (off - encLen e)

/-- The three file names the store ever touches in its directory:
`current-data` (`outFileName`), `segment-<id>` (`segmentPrefix`), and
the transient `merge-temp`. -/
inductive FileName where
  | currentData
  | segmentN (id : Nat)
  | mergeTemp
deriving DecidableEq, Repr

/-- `type segment struct` from the source; the `*os.File` handle is not
modelled (reads go through the disk map), `index` is the in-segment
key → offset map. -/
structure segment where
  id : Nat
  filePath : FileName
  size : Nat
  index : List (String × Nat)
deriving DecidableEq, Repr

/-- `type segmentLocation struct` from the source. -/
structure segmentLocation where
  segID : Nat
  offset : Nat
deriving DecidableEq, Repr

/-- The errors the embedded operations surface: `ErrNotFound`, the
`"segment %d not found"` consistency error, and any file I/O or decode
failure collapsed to one constructor. -/
inductive DbError where
  | notFound
  | segmentNotFound (id : Nat)
  | ioError
deriving DecidableEq, Repr

/-- `type Db struct` from the source.  `out` is the last element of
`segments` (see the header comment); `disk` is the directory state;
`closed` records whether `closeOnce` has fired. -/
structure DbState where
  segments : List segment
  index : List (String × segmentLocation)
  maxSize : Nat
  nextSegID : Nat
  disk : List (FileName × List entry)
  closed : Bool
deriving DecidableEq, Repr

/-- Go map lookup over the association-list model: first hit wins
(which is the most recent insertion, since inserts cons). -/
def alookup {β : Type} (k : String) : List (String × β) → Option β
  | [] => none
  | (k', v) :: rest => if k' = k then some v else alookup k rest

/-- The segment scan in `Get`: first segment in list order whose id
matches (`for _, s := range db.segments { if s.id == loc.segID ... }`). -/
def findSeg (sid : Nat) : List segment → Option segment
  | [] => none
  | s :: rest => if s.id = sid then some s else findSeg sid rest

/-- First record with the given key, in file order. -/
def findRec (k : String) : List entry → Option entry
  | [] => none
  | e :: rest => if e.key = k then some e else findRec k rest

/-- Directory read: content of the named file, if present. -/
def diskGet (n : FileName) : List (FileName × List entry) → Option (List entry)
  | [] => none
  | (m, c) :: rest => if m = n then some c else diskGet n rest

/-- Directory write: replace the named file's content, or create the
file (at the end, i.e. newest) if absent. -/
def diskSet (n : FileName) (c : List entry) : List (FileName × List entry) → List (FileName × List entry)
  | [] => [(n, c)]
  | (m, x) :: rest => if m = n then (n, c) :: rest else (m, x) :: diskSet n c rest

/-- `os.Remove`: drop the named file. -/
def diskRemove (n : FileName) : List (FileName × List entry) → List (FileName × List entry)
  | [] => []
  | (m, x) :: rest => if m = n then diskRemove n rest else (m, x) :: diskRemove n rest

/-- An `O_APPEND` write of records to the named file (created empty
first if absent, as with `O_CREATE`). -/
def diskAppend (n : FileName) (c : List entry) (d : List (FileName × List entry)) : List (FileName × List entry) :=
  diskSet n ((diskGet n d).getD [] ++ c) d

/-- `O_CREATE` open for append: create the file empty if absent,
keep it untouched otherwise. -/
def diskEnsure (n : FileName) (d : List (FileName × List entry)) : List (FileName × List entry) :=
  if (diskGet n d).isSome then d else diskSet n [] d

/-- The write target `db.out`: always the last element of `segments`. -/
def lastSeg : List segment → Option segment
  | [] => none
  | [s] => some s
  | _ :: s :: rest => lastSeg (s :: rest)

/-- File classification in `recover`: `current-data` is id 0, a
`segment-<id>` name parses to its id (`fmt.Sscanf`), anything else
(here only `merge-temp`) is skipped. -/
def classify : FileName → Option Nat
  | .currentData => some 0
  | .segmentN n => some n
  | .mergeTemp => none

/-- The classified directory listing, in listing order. -/
def classifyList (d : List (FileName × List entry)) : List (FileName × Nat) :=
  (d.map Prod.fst).filterMap (fun n => (classify n).map (fun i => (n, i)))

/-- Ascending insertion keeping earlier-listed files first on equal ids. -/
def insertById (p : FileName × Nat) : List (FileName × Nat) → List (FileName × Nat)
  | [] => [p]
  | q :: rest => if q.2 ≤ p.2 then q :: insertById p rest else p :: q :: rest

/-- `sort.Slice(segFiles, ...)` by id ascending, modelled as a stable
sort of the listing.  (Go's `sort.Slice` is unstable; ties can only
arise between `current-data` and `segment-0`, both carrying id 0, and
either tie order loses a key in the states where that happens.) -/
def sortById (l : List (FileName × Nat)) : List (FileName × Nat) :=
  l.foldl (fun acc p => insertById p acc) []

/-- `createNewSegment` from the source: the very first segment is the
`current-data` file with id 0 (and `nextSegID` is left untouched);
later segments are `segment-<nextSegID>` and increment `nextSegID`. -/
def createNewSegment (db : DbState) : DbState :=
  if db.segments.isEmpty then
    { db with segments := db.segments ++ [{ id := 0, filePath := .currentData, size := 0, index := [] }],
              disk := diskEnsure .currentData db.disk }
  else
    { db with segments := db.segments ++ [{ id := db.nextSegID, filePath := .segmentN db.nextSegID, size := 0, index := [] }],
              nextSegID := db.nextSegID + 1,
              disk := diskEnsure (.segmentN db.nextSegID) db.disk }

/-- One iteration of the segment loop in `recover`, including
`recoverSegmentIndex`: stat the file for its size, then replay every
record, filling the segment's local index and the global index and
advancing the offset by the decoded byte count; finally bump
`nextSegID` past this id if needed. -/
def recoverSegment (db : DbState) (n : FileName) (i : Nat) : DbState :=
  let content := (diskGet n db.disk).getD []
  let st := content.foldl
      (fun (acc : List (String × Nat) × List (String × segmentLocation) × Nat) e =>
        ((e.key, acc.2.2) :: acc.1, (e.key, ⟨i, acc.2.2⟩) :: acc.2.1, acc.2.2 + encLen e))
      ([], db.index, 0)
  { db with segments := db.segments ++ [{ id := i, filePath := n, size := encLenSum content, index := st.1 }],
            index := st.2.1,
            nextSegID := if db.nextSegID ≤ i then i + 1 else db.nextSegID }

/-- `recover` from the source: classify and sort the directory listing,
replay each segment in ascending id order, and create a fresh first
segment when none was found (the last segment becomes `db.out`). -/
def recoverDb (db : DbState) : DbState :=
  let files := sortById (classifyList db.disk)
  let db := files.foldl (fun d p => recoverSegment d p.1 p.2) db
  if db.segments.isEmpty then createNewSegment db else db

/-- `OpenWithMaxSize` on a directory in the given state. -/
def openWithMaxSize (disk : List (FileName × List entry)) (maxSize : Nat) : DbState :=
  recoverDb { segments := [], index := [], maxSize := maxSize, nextSegID := 0, disk := disk, closed := false }

/-- `Get` from the source: global index lookup, scan for the segment
with the recorded id, then the worker's physical read (open the file,
seek to the offset, decode one record, return its value). -/
def get (db : DbState) (k : String) : Except DbError String :=
  match alookup k db.index with
  | none => .error .notFound
  | some loc =>
    match findSeg loc.segID db.segments with
    | none => .error (.segmentNotFound loc.segID)
    | some seg =>
      match diskGet seg.filePath db.disk with
      | none => .error .ioError
      | some content =>
        match decodeAt content loc.offset with
        | none => .error .ioError
        | some e => .ok e.value

/-- `doPut` from the source, with `wErr` stating that the file append
returns an I/O error.  Size is checked against the pre-computed encoded
length before the write; on rollover a new segment becomes the write
target before the append; on success the local and global indexes are
set to the pre-write offset and the tracked size advances.  The source
would dereference a nil `db.out` if `segments` were empty; that state
is unreachable while the writer runs, and is mapped to an error here.
(The trailing `go db.mergeSegments()` trigger is the separate
transition `mergeSegments`.)  The body after the rollover decision is
split off as `doPutAppend`; together the two definitions are the body
of the source's `doPut`. -/
def doPutAppend (wErr : Bool) (k v : String) (db1 : DbState) : DbState × Except DbError Unit :=
  match lastSeg db1.segments with
  | none => (db1, .error .ioError)
  | some out =>
    if wErr then (db1, .error .ioError)
    else
      ({ db1 with
          segments := db1.segments.dropLast ++
            [{ out with size := out.size + encLen ⟨k, v⟩, index := (k, out.size) :: out.index }],
          index := (k, ⟨out.id, out.size⟩) :: db1.index,
          disk := diskAppend out.filePath [⟨k, v⟩] db1.disk },
        .ok ())

def doPutF (wErr : Bool) (k v : String) (db : DbState) : DbState × Except DbError Unit :=
  match lastSeg db.segments with
  | none => (db, .error .ioError)
  | some out0 =>
    doPutAppend wErr k v
      (if db.maxSize < out0.size + encLen ⟨k, v⟩ then createNewSegment db else db)

/-- A serial `Put`: the writer goroutine runs `doPut` with a successful
append. -/
def doPut (k v : String) (db : DbState) : DbState × Except DbError Unit :=
  doPutF false k v db

/-- Run a list of serial `Put`s. -/
def putList (ps : List (String × String)) (db : DbState) : DbState :=
  ps.foldl (fun d p => (doPut p.1 p.2 d).1) db

/-- `Close` from the source: `closeOnce` makes the second call a no-op;
the first call closes the segment handles (their errors are not
modelled) and nils out `segments` and `out`.  The global index is NOT
cleared. -/
def close (db : DbState) : DbState × Except DbError Unit :=
  if db.closed then (db, .ok ())
  else ({ db with segments := [], closed := true }, .ok ())

/-- `Size` from the source: sum of the tracked segment sizes, always
with a nil error. -/
def size (db : DbState) : Except DbError Nat :=
  .ok (db.segments.foldl (fun t s => t + s.size) 0)

/-- Accumulator of the merge loop: the temporary file's records, the
fresh index, and the running output offset. -/
structure MAcc where
  temp : List entry
  newIdx : List (String × segmentLocation)
  offset : Nat
deriving Repr

/-- The body of the inner merge loop: a record whose key was already
seen in this compaction pass is skipped; otherwise it is appended to
the temporary file and indexed at the current output offset under the
new segment's id. -/
def mergeRecord (sid : Nat) (acc : MAcc) (r : entry) : MAcc :=
  match alookup r.key acc.newIdx with
  | some _ => acc
  | none =>
    { temp := acc.temp ++ [r],
      newIdx := (r.key, ⟨sid, acc.offset⟩) :: acc.newIdx,
      offset := acc.offset + encLen r }

/-- The source-segment contents the merge loop replays, newest segment
first (`for i := len(db.segments) - 1; i >= 0; i--`), with `readable`
stating which files `os.Open` can open: an unreadable or absent source
segment is skipped with `continue`, and the merge carries on. -/
def mergeSources (readable : FileName → Bool) (db : DbState) : List (List entry) :=
  (db.segments.filterMap
    (fun s => if readable s.filePath then diskGet s.filePath db.disk else none)).reverse

/-- The two nested merge loops: fold `mergeRecord` over every record
of every readable segment, newest segment first, file order within a
segment. -/
def mergeAccF (readable : FileName → Bool) (db : DbState) : MAcc :=
  (mergeSources readable db).foldl
    (fun a c => c.foldl (mergeRecord db.nextSegID) a) ⟨[], [], 0⟩

/-- `mergeSegments` from the source.  Steps, as in the source: no-op at
one segment or fewer; open `merge-temp` for append (`O_APPEND`, hence
the `getD [] ++`); replay the segments from newest to oldest, first key
occurrence wins (`mergeAccF`); close the source handles; rename the
temp file to `segment-<nextSegID>` (rename and re-open are assumed to
succeed, as they do in the states considered, so the `db.recover()`
fallback on those two failures is not modelled); replace the segment
list and the global index; run the deletion loop over the
ALREADY-REPLACED list (`db.segments[:len(db.segments)-1]`, which is
empty); finally the deferred `os.Remove` of the temp path (a no-op,
the file was renamed away). -/
def mergeSegmentsF (readable : FileName → Bool) (db : DbState) : DbState :=
  if db.segments.length ≤ 1 then db
  else
    let acc := mergeAccF readable db
    let tempContent := (diskGet .mergeTemp db.disk).getD [] ++ acc.temp
    let disk1 := diskSet .mergeTemp tempContent db.disk
    let disk2 := diskSet (.segmentN db.nextSegID) tempContent (diskRemove .mergeTemp disk1)
    let newSeg : segment :=
      { id := db.nextSegID, filePath := .segmentN db.nextSegID, size := acc.offset,
        index := acc.newIdx.map (fun p => (p.1, p.2.offset)) }
    let segs := [newSeg]
    let disk3 := (segs.dropLast).foldl (fun d s => diskRemove s.filePath d) disk2
    { db with segments := segs, index := acc.newIdx, nextSegID := db.nextSegID + 1,
              disk := diskRemove .mergeTemp disk3 }

/-- `mergeSegments` on the happy path: every file opens. -/
def mergeSegments (db : DbState) : DbState :=
  mergeSegmentsF (fun _ => true) db

/-- The flattened stream of records the merge replays when every
segment file is readable: all records, newest segment first, file
order within each segment.  The first record with a given key in this
stream is the one compaction keeps. -/
def mergeSource (db : DbState) : List entry :=
  ((db.segments.map (fun s => (diskGet s.filePath db.disk).getD [])).reverse).flatten

/-- Invariant of the compaction loop after processing the records
`processed` (newest segment first, file order within a segment): the
output offset tracks the temp file's size, the temp file has one
record per key, and the fresh index maps exactly the processed keys to
the first processed record with that key, decodable at the recorded
offset under the new segment's id. -/
def MInv (sid : Nat) (processed : List entry) (acc : MAcc) : Prop :=
  acc.offset = encLenSum acc.temp ∧
  (acc.temp.map entry.key).Nodup ∧
  (∀ k, (findRec k acc.temp).isSome = (alookup k acc.newIdx).isSome) ∧
  (∀ k, alookup k acc.newIdx = none ↔ findRec k processed = none) ∧
  (∀ k loc, alookup k acc.newIdx = some loc →
      loc.segID = sid ∧ decodeAt acc.temp loc.offset = findRec k processed)

/-! ### Concrete executions used by the claims

All keys and values below are single characters, so every record
encodes to 14 bytes (`encLen`). -/

/-- A first session on an empty directory with `maxSize = 60`: the
first four records fill `current-data` to 56 bytes, the fifth forces a
rollover. -/
def dbRoll : DbState :=
  putList [("a","1"),("b","2"),("c","3"),("d","4"),("e","5")] (openWithMaxSize [] 60)

/-- Two more serial puts of the same key after the rollover. -/
def dbPP : DbState := putList [("k","1"),("k","2")] dbRoll

/-- Close the first session and reopen the same directory. -/
def dbRestart : DbState := openWithMaxSize (close dbRoll).1.disk 60

/-- A first session on an empty directory with `maxSize = 45`: three
records, no rollover. -/
def dbTrace1 : DbState := putList [("a","1"),("b","2"),("c","3")] (openWithMaxSize [] 45)

/-- Second session on the same directory: two puts of key `k`; the
first one rolls over into `segment-1`, so both `k` records land in the
newest segment. -/
def dbTrace2 : DbState := putList [("k","1"),("k","2")] (openWithMaxSize (close dbTrace1).1.disk 45)

/-- Compaction of that two-segment store. -/
def dbMergedT : DbState := mergeSegments dbTrace2

/-- A store opened on a directory already holding two segments (as
left by an earlier session's rollover). -/
def dbTwoSeg : DbState :=
  openWithMaxSize [(FileName.currentData, [⟨"a","1"⟩]), (FileName.segmentN 1, [⟨"b","2"⟩])] 100

/-- Compaction of `dbTwoSeg` during which `current-data` cannot be
opened. -/
def dbAfterBadMerge : DbState :=
  mergeSegmentsF (fun n => decide (n ≠ FileName.currentData)) dbTwoSeg

/-- The store of the first session, closed. -/
def dbClosed : DbState := (close dbRoll).1

/-! ### Claim theorems on concrete executions -/

/-- C8: after `Open` on an empty directory the source leaves
`nextSegID = 0` instead of `1` (the first segment has id 0), so the
first rollover allocates a second segment that also carries id 0: the
segment ids are neither unique nor `nextSegID = highest + 1`. -/
theorem fresh_open_duplicate_segment_ids :
    (openWithMaxSize [] 60).segments.map segment.id = [0] ∧
    (openWithMaxSize [] 60).nextSegID = 0 ∧
    dbRoll.segments.map segment.id = [0, 0] :=
  ⟨rfl, rfl, rfl⟩

/-- C6: a sequence of puts that causes a rollover (`dbRoll`: five puts
with `maxSize = 60`) leaves key `"e"` unretrievable with its correct
value: the rollover segment duplicates id 0, `Get` resolves id 0 to
`current-data`, and returns `"1"` (the record of `"a"`) instead of
`"5"`. -/
theorem rollover_key_not_retrievable :
    dbRoll.segments.length = 2 ∧
    get dbRoll "e" = .ok "1" ∧ ("1" : String) ≠ "5" :=
  ⟨rfl, rfl, by decide⟩

/-- C4: in the reachable state `dbRoll`, serially executing
`Put("k","1")` then `Put("k","2")` and then `Get("k")` returns `"3"`
(the record at the same offset in `current-data`, which shares id 0
with the write segment), not `"2"`. -/
theorem put_put_get_wrong_value :
    get dbPP "k" = .ok "3" ∧ ("3" : String) ≠ "2" :=
  ⟨rfl, by decide⟩

/-- C3: after `Put("e","5")` (never superseded), `Close`, and a fresh
`Open` on the same directory, `Get("e")` returns `"1"`: recovery gives
both `current-data` and `segment-0` id 0, and the index entry for `"e"`
resolves to the wrong file. -/
theorem restart_after_rollover_wrong_value :
    get dbRestart "e" = .ok "1" ∧ ("1" : String) ≠ "5" :=
  ⟨rfl, by decide⟩

/-- C5: a fully successful compaction of the two-segment store
`dbTrace2` leaves THREE files on disk — the deletion loop iterates
`db.segments[:len(db.segments)-1]` after `db.segments` was already
replaced by the one-element merged list, so the old segment files are
never removed. -/
theorem mergeSegments_old_files_not_deleted :
    dbMergedT.segments.length = 1 ∧
    dbMergedT.disk.map Prod.fst =
      [FileName.currentData, FileName.segmentN 1, FileName.segmentN 2] :=
  ⟨rfl, rfl⟩

/-- C2 counterexample: in `dbTrace2` the key `"k"` was written twice
into the newest segment; before compaction `Get("k")` returns `"2"`
(the last put), but after `mergeSegments` it returns `"1"`: the merge
replays each segment in file order and keeps the FIRST record of a key
it meets, which within one segment is the OLDEST. -/
theorem mergeSegments_not_latest_counterexample :
    dbTrace2.segments.length = 2 ∧
    get dbTrace2 "k" = .ok "2" ∧
    get dbMergedT "k" = .ok "1" ∧ ("1" : String) ≠ "2" :=
  ⟨rfl, rfl, rfl, by decide⟩

/-- C1: when `current-data` is unreadable during compaction of
`dbTwoSeg`, the merge silently skips it, completes, and replaces the
global index with the partial result: key `"a"` was retrievable before
(`"1"`) and yields `NotFound` after `mergeSegments` returns. -/
theorem mergeSegments_unreadable_loses_key :
    get dbTwoSeg "a" = .ok "1" ∧
    get dbAfterBadMerge "a" = .error .notFound :=
  ⟨rfl, rfl⟩

/-- C9 counterexample: after the first `Close`, `Size` does not fail:
it returns 0 with a nil error. -/
theorem close_then_size_succeeds :
    dbClosed.closed = true ∧ size dbClosed = .ok 0 :=
  ⟨rfl, rfl⟩

/-! ### Helper lemmas -/

theorem lastSeg_snoc : ∀ (l : List segment) (s : segment), lastSeg (l ++ [s]) = some s
  | [], _ => rfl
  | [_], _ => rfl
  | _ :: b :: l, s => lastSeg_snoc (b :: l) s

theorem lastSeg_eq_none : ∀ {l : List segment}, lastSeg l = none → l = []
  | [], _ => rfl
  | [_], h => absurd h (by simp [lastSeg])
  | _ :: b :: t, h => absurd (lastSeg_eq_none (l := b :: t) h) (by simp)

theorem encLenSum_append (l₁ l₂ : List entry) :
    encLenSum (l₁ ++ l₂) = encLenSum l₁ + encLenSum l₂ := by
  induction l₁ with
  | nil => simp [encLenSum]
  | cons e l ih => simp [encLenSum, List.foldr] at ih ⊢; omega

theorem findRec_append_some {k : String} {e : entry} :
    ∀ {l₁ : List entry} (l₂ : List entry), findRec k l₁ = some e →
      findRec k (l₁ ++ l₂) = some e := by
  intro l₁
  induction l₁ with
  | nil => intro l₂ h; exact absurd h (by simp [findRec])
  | cons a l ih =>
    intro l₂ h
    by_cases ha : a.key = k
    · simpa [findRec, ha] using h
    · rw [findRec, if_neg ha] at h
      simpa [findRec, ha] using ih l₂ h

theorem findRec_append_none {k : String} :
    ∀ {l₁ : List entry} (l₂ : List entry), findRec k l₁ = none →
      findRec k (l₁ ++ l₂) = findRec k l₂ := by
  intro l₁
  induction l₁ with
  | nil => intro l₂ _; rfl
  | cons a l ih =>
    intro l₂ h
    by_cases ha : a.key = k
    · simp [findRec, ha] at h
    · rw [findRec, if_neg ha] at h
      simpa [findRec, ha] using ih l₂ h

theorem findRec_snoc_self {k : String} {l : List entry} {e : entry}
    (h : findRec k l = none) (he : e.key = k) : findRec k (l ++ [e]) = some e := by
  rw [findRec_append_none [e] h, findRec, if_pos he]

theorem findRec_snoc_ne {k : String} {l : List entry} {e : entry}
    (he : e.key ≠ k) : findRec k (l ++ [e]) = findRec k l := by
  cases h : findRec k l with
  | some x => exact findRec_append_some [e] h
  | none => rw [findRec_append_none [e] h, findRec, if_neg he, findRec]

theorem findRec_none_not_mem {k : String} :
    ∀ {l : List entry}, findRec k l = none → k ∉ l.map entry.key := by
  intro l
  induction l with
  | nil => intro _; simp
  | cons a l ih =>
    intro h
    by_cases ha : a.key = k
    · simp [findRec, ha] at h
    · rw [findRec, if_neg ha] at h
      simp only [List.map_cons, List.mem_cons]
      rintro (rfl | hm)
      · exact ha rfl
      · exact ih h hm

theorem decodeAt_append_some {off : Nat} {e : entry} :
    ∀ {l : List entry} (l₂ : List entry), decodeAt l off = some e →
      decodeAt (l ++ l₂) off = some e := by
  intro l
  induction l generalizing off with
  | nil => intro l₂ h; exact absurd h (by simp [decodeAt])
  | cons a l ih =>
    intro l₂ h
    rw [decodeAt] at h
    by_cases h0 : off = 0
    · rw [h0] at h ⊢
      simpa [decodeAt] using h
    · rw [if_neg h0] at h
      by_cases hlt : off < encLen a
      · rw [if_pos hlt] at h; exact absurd h (by simp)
      · rw [if_neg hlt] at h
        rw [List.cons_append, decodeAt, if_neg h0, if_neg hlt]
        exact ih l₂ h

theorem decodeAt_snoc_sum : ∀ (l : List entry) (e : entry),
    decodeAt (l ++ [e]) (encLenSum l) = some e := by
  intro l
  induction l with
  | nil => intro e; simp [encLenSum, decodeAt]
  | cons a l ih =>
    intro e
    have hsum : encLenSum (a :: l) = encLen a + encLenSum l := by
      simp [encLenSum, List.foldr]
    have hpos : 0 < encLen a := by unfold encLen; omega
    rw [List.cons_append, decodeAt, hsum, if_neg (by omega), if_neg (by omega)]
    have : encLen a + encLenSum l - encLen a = encLenSum l := by omega
    rw [this]
    exact ih e

theorem nodup_keys_snoc {l : List entry} {e : entry}
    (h : (l.map entry.key).Nodup) (he : e.key ∉ l.map entry.key) :
    ((l ++ [e]).map entry.key).Nodup := by
  rw [List.map_append]
  exact List.Nodup.append h (by simp) (by simpa [List.disjoint_singleton] using he)

theorem isSome_congr {α β : Type} {a : Option α} {b : Option β}
    (h : a = none ↔ b = none) : a.isSome = b.isSome := by
  cases a <;> cases b <;> simp_all

theorem diskGet_set_self (n : FileName) (c : List entry) :
    ∀ (d : List (FileName × List entry)), diskGet n (diskSet n c d) = some c := by
  intro d
  induction d with
  | nil => simp [diskSet, diskGet]
  | cons p rest ih =>
    by_cases hp : p.1 = n
    · simp [diskSet, hp, diskGet]
    · cases p with
      | mk m x =>
        simp only [diskSet]
        rw [if_neg hp]
        simpa [diskGet, hp] using ih

theorem diskGet_remove_ne {m n : FileName} (h : m ≠ n) :
    ∀ (d : List (FileName × List entry)), diskGet n (diskRemove m d) = diskGet n d := by
  intro d
  induction d with
  | nil => rfl
  | cons p rest ih =>
    cases p with
    | mk p1 c =>
      by_cases hp : p1 = m
      · subst hp
        have hn : p1 ≠ n := h
        simp [diskRemove, diskGet, hn, ih]
      · by_cases hn : p1 = n
        · subst hn
          simp [diskRemove, diskGet, Ne.symm h]
        · simp [diskRemove, diskGet, hp, hn, ih]

theorem filterMap_total_eq_map {α β : Type} (g : α → Option β) (d : β) :
    ∀ (l : List α), (∀ x ∈ l, (g x).isSome = true) →
      l.filterMap g = l.map (fun x => (g x).getD d) := by
  intro l
  induction l with
  | nil => intro _; rfl
  | cons x l ih =>
    intro h
    obtain ⟨y, hy⟩ := Option.isSome_iff_exists.mp (h x (List.mem_cons_self x l))
    rw [List.filterMap_cons, List.map_cons, hy]
    simp only [Option.getD_some]
    rw [ih (fun a ha => h a (List.mem_cons_of_mem x ha))]

theorem MInv_init (sid : Nat) : MInv sid [] ⟨[], [], 0⟩ := by
  refine ⟨rfl, by simp, ?_, ?_, ?_⟩
  · intro k; rfl
  · intro k; simp [alookup, findRec]
  · intro k loc h; simp [alookup] at h

theorem mergeRecord_inv {sid : Nat} {processed : List entry} {acc : MAcc} (r : entry)
    (h : MInv sid processed acc) :
    MInv sid (processed ++ [r]) (mergeRecord sid acc r) := by
  obtain ⟨h1, h2, h3, h4, h5⟩ := h
  unfold mergeRecord
  cases hl : alookup r.key acc.newIdx with
  | some loc0 =>
    have hfp : findRec r.key processed ≠ none := by
      intro hc
      rw [← h4 r.key] at hc
      rw [hc] at hl
      exact Option.noConfusion hl
    obtain ⟨e0, he0⟩ := Option.ne_none_iff_exists'.mp hfp
    refine ⟨h1, h2, h3, ?_, ?_⟩
    · intro k
      by_cases hk : r.key = k
      · subst hk
        constructor
        · intro hc; rw [hc] at hl; exact Option.noConfusion hl
        · intro hc
          rw [findRec_append_some [r] he0] at hc
          exact Option.noConfusion hc
      · rw [findRec_snoc_ne hk]
        exact h4 k
    · intro k loc hkl
      obtain ⟨hs, hd⟩ := h5 k loc hkl
      have hne : findRec k processed ≠ none := by
        intro hc
        rw [← h4 k] at hc
        rw [hc] at hkl
        exact Option.noConfusion hkl
      obtain ⟨e1, he1⟩ := Option.ne_none_iff_exists'.mp hne
      refine ⟨hs, ?_⟩
      rw [findRec_append_some [r] he1, hd, he1]
  | none =>
    have hfp : findRec r.key processed = none := (h4 r.key).mp hl
    have hft : findRec r.key acc.temp = none := by
      have h3' := h3 r.key
      rw [hl] at h3'
      cases hcase : findRec r.key acc.temp with
      | none => rfl
      | some e => rw [hcase] at h3'; simp at h3'
    refine ⟨?_, ?_, ?_, ?_, ?_⟩
    · show acc.offset + encLen r = encLenSum (acc.temp ++ [r])
      rw [encLenSum_append, h1]
      simp [encLenSum]
    · exact nodup_keys_snoc h2 (findRec_none_not_mem hft)
    · intro k
      by_cases hk : r.key = k
      · subst hk
        rw [findRec_snoc_self hft rfl]
        simp [alookup]
      · rw [findRec_snoc_ne hk]
        simp only [alookup, if_neg hk]
        exact h3 k
    · intro k
      by_cases hk : r.key = k
      · subst hk
        rw [findRec_snoc_self hfp rfl]
        simp [alookup]
      · rw [findRec_snoc_ne hk]
        simp only [alookup, if_neg hk]
        exact h4 k
    · intro k loc hkl
      by_cases hk : r.key = k
      · subst hk
        simp only [alookup, if_pos rfl] at hkl
        cases hkl
        refine ⟨rfl, ?_⟩
        rw [findRec_snoc_self hfp rfl, h1]
        exact decodeAt_snoc_sum acc.temp r
      · simp only [alookup, if_neg hk] at hkl
        obtain ⟨hs, hd⟩ := h5 k loc hkl
        have hne : findRec k processed ≠ none := by
          intro hc
          rw [← h4 k] at hc
          rw [hc] at hkl
          exact Option.noConfusion hkl
        obtain ⟨e1, he1⟩ := Option.ne_none_iff_exists'.mp hne
        refine ⟨hs, ?_⟩
        rw [findRec_snoc_ne hk, he1]
        rw [he1] at hd
        exact decodeAt_append_some [r] hd

theorem mergeFold_inv (sid : Nat) :
    ∀ (rs : List entry) (processed : List entry) (acc : MAcc),
      MInv sid processed acc →
      MInv sid (processed ++ rs) (rs.foldl (mergeRecord sid) acc)
  | [], _, _, h => by simpa using h
  | r :: rs, processed, acc, h => by
    have h2 := mergeFold_inv sid rs (processed ++ [r]) (mergeRecord sid acc r)
      (mergeRecord_inv r h)
    simpa [List.append_assoc] using h2

theorem foldl_nested {α β : Type} (f : β → α → β) :
    ∀ (cs : List (List α)) (b : β),
      cs.foldl (fun a c => c.foldl f a) b = (cs.flatten).foldl f b := by
  intro cs
  induction cs with
  | nil => intro b; rfl
  | cons c cs ih =>
    intro b
    simp only [List.foldl_cons, List.flatten_cons, List.foldl_append]
    exact ih (c.foldl f b)

theorem mergeAccF_eq_foldl (db : DbState)
    (hP : ∀ s ∈ db.segments, (diskGet s.filePath db.disk).isSome = true) :
    mergeAccF (fun _ => true) db =
      (mergeSource db).foldl (mergeRecord db.nextSegID) ⟨[], [], 0⟩ := by
  have hfm : db.segments.filterMap
        (fun s => if (fun (_ : FileName) => true) s.filePath then diskGet s.filePath db.disk else none)
      = db.segments.map (fun s => (diskGet s.filePath db.disk).getD []) := by
    rw [show (fun (s : segment) =>
          if (fun (_ : FileName) => true) s.filePath then diskGet s.filePath db.disk else none)
        = (fun (s : segment) => diskGet s.filePath db.disk) from rfl]
    exact filterMap_total_eq_map (fun s => diskGet s.filePath db.disk) [] db.segments hP
  unfold mergeAccF mergeSources mergeSource
  rw [foldl_nested, hfm]

theorem mergeSegmentsF_eq (readable : FileName → Bool) (db : DbState)
    (hlen : ¬ db.segments.length ≤ 1)
    (hT : diskGet .mergeTemp db.disk = none) :
    mergeSegmentsF readable db =
      { db with
        segments := [{ id := db.nextSegID, filePath := .segmentN db.nextSegID,
                       size := (mergeAccF readable db).offset,
                       index := (mergeAccF readable db).newIdx.map (fun p => (p.1, p.2.offset)) }],
        index := (mergeAccF readable db).newIdx,
        nextSegID := db.nextSegID + 1,
        disk := diskRemove .mergeTemp
          (diskSet (.segmentN db.nextSegID) (mergeAccF readable db).temp
            (diskRemove .mergeTemp (diskSet .mergeTemp (mergeAccF readable db).temp db.disk))) } := by
  unfold mergeSegmentsF
  rw [if_neg hlen, hT]
  rfl

theorem get_notFound (db' : DbState) (k : String)
    (h1 : alookup k db'.index = none) : get db' k = .error .notFound := by
  unfold get
  simp only [h1]

theorem get_eval (db' : DbState) (k : String) (loc : segmentLocation)
    (seg : segment) (content : List entry) (e : entry)
    (h1 : alookup k db'.index = some loc)
    (h2 : findSeg loc.segID db'.segments = some seg)
    (h3 : diskGet seg.filePath db'.disk = some content)
    (h4 : decodeAt content loc.offset = some e) :
    get db' k = .ok e.value := by
  unfold get
  simp only [h1, h2, h3, h4]

/-- C2 (amended): for every store with at least two segments (all of
whose segment files are readable, with no leftover `merge-temp` file),
`mergeSegments` produces a merged segment containing exactly one
record per live key; the record kept for a key is the FIRST record, in
file order, of that key within the NEWEST segment that contains it
(the first hit in `mergeSource`), and `Get` after compaction returns
that record's value.  That is the most recent value only when no key
has two records within a single segment; a key written twice within
one segment reverts to the older of those records (see the
counterexample). -/
theorem mergeSegments_newest_segment_first_record (db : DbState)
    (h2 : 2 ≤ db.segments.length)
    (hT : diskGet .mergeTemp db.disk = none)
    (hP : ∀ s ∈ db.segments, (diskGet s.filePath db.disk).isSome = true) :
    (∀ k, get (mergeSegments db) k =
        match findRec k (mergeSource db) with
        | some e => Except.ok e.value
        | none => Except.error DbError.notFound) ∧
    (∃ c, diskGet (.segmentN db.nextSegID) (mergeSegments db).disk = some c ∧
      (c.map entry.key).Nodup ∧
      (∀ k, (findRec k c).isSome = (findRec k (mergeSource db)).isSome)) := by
  have hlen : ¬ db.segments.length ≤ 1 := by omega
  have hEq := mergeSegmentsF_eq (fun _ => true) db hlen hT
  have hAcc := mergeAccF_eq_foldl db hP
  have hinv0 := mergeFold_inv db.nextSegID (mergeSource db) [] ⟨[], [], 0⟩ (MInv_init db.nextSegID)
  rw [List.nil_append, ← hAcc] at hinv0
  obtain ⟨hi1, hi2, hi3, hi4, hi5⟩ := hinv0
  have hmt : FileName.mergeTemp ≠ FileName.segmentN db.nextSegID := by simp
  have hidx : (mergeSegmentsF (fun _ => true) db).index = (mergeAccF (fun _ => true) db).newIdx := by
    rw [hEq]
  have hsegs : (mergeSegmentsF (fun _ => true) db).segments =
      [{ id := db.nextSegID, filePath := .segmentN db.nextSegID,
         size := (mergeAccF (fun _ => true) db).offset,
         index := (mergeAccF (fun _ => true) db).newIdx.map (fun p => (p.1, p.2.offset)) }] := by
    rw [hEq]
  have hdisk : diskGet (FileName.segmentN db.nextSegID) (mergeSegmentsF (fun _ => true) db).disk
      = some (mergeAccF (fun _ => true) db).temp := by
    rw [hEq]
    show diskGet _ (diskRemove .mergeTemp
      (diskSet (.segmentN db.nextSegID) (mergeAccF (fun _ => true) db).temp
        (diskRemove .mergeTemp (diskSet .mergeTemp (mergeAccF (fun _ => true) db).temp db.disk)))) = _
    rw [diskGet_remove_ne hmt, diskGet_set_self]
  unfold mergeSegments
  constructor
  · intro k
    cases hk : alookup k (mergeAccF (fun _ => true) db).newIdx with
    | none =>
      rw [(hi4 k).mp hk]
      exact get_notFound _ k (by rw [hidx]; exact hk)
    | some loc =>
      obtain ⟨hs, hd⟩ := hi5 k loc hk
      have hne : findRec k (mergeSource db) ≠ none := by
        intro hc
        rw [← hi4 k] at hc
        rw [hc] at hk
        exact Option.noConfusion hk
      obtain ⟨e, he⟩ := Option.ne_none_iff_exists'.mp hne
      rw [he]
      rw [he] at hd
      exact get_eval _ k loc
        { id := db.nextSegID, filePath := .segmentN db.nextSegID,
          size := (mergeAccF (fun _ => true) db).offset,
          index := (mergeAccF (fun _ => true) db).newIdx.map (fun p => (p.1, p.2.offset)) }
        (mergeAccF (fun _ => true) db).temp e
        (by rw [hidx]; exact hk)
        (by rw [hsegs]; simp [findSeg, hs])
        hdisk
        hd
  · exact ⟨(mergeAccF (fun _ => true) db).temp, hdisk, hi2,
      fun k => by rw [hi3 k]; exact isSome_congr (hi4 k)⟩

/-- Witness for C2's amended theorem at the concrete two-segment store
`dbTrace2` and key `"k"`. -/
theorem mergeSegments_newest_segment_first_record_witness :
    (2 ≤ dbTrace2.segments.length ∧
     diskGet .mergeTemp dbTrace2.disk = none ∧
     (∀ s ∈ dbTrace2.segments, (diskGet s.filePath dbTrace2.disk).isSome = true)) ∧
    get (mergeSegments dbTrace2) "k" =
      (match findRec "k" (mergeSource dbTrace2) with
       | some e => Except.ok e.value
       | none => Except.error DbError.notFound) :=
  ⟨⟨by decide, by decide, by decide⟩,
   (mergeSegments_newest_segment_first_record dbTrace2 (by decide) (by decide) (by decide)).1 "k"⟩

theorem createNewSegment_nonempty (db : DbState) (h : db.segments ≠ []) :
    createNewSegment db =
      { db with
        segments := db.segments ++
                    [{ id := db.nextSegID, filePath := .segmentN db.nextSegID,
                       size := 0, index := [] }],
        nextSegID := db.nextSegID + 1,
        disk := diskEnsure (.segmentN db.nextSegID) db.disk } := by
  have hne : ¬ (db.segments.isEmpty = true) := by
    cases hs : db.segments with
    | nil => exact absurd hs h
    | cons a t => simp [List.isEmpty]
  unfold createNewSegment
  rw [if_neg hne]

/-- C7: when the file append inside `doPut` returns an I/O error, the
put aborts with that error before any index mutation: the global index
is unchanged, and the local indexes of all segments are unchanged (at
most a fresh segment with an EMPTY local index was added by a rollover
that preceded the failing append). -/
theorem doPut_write_error_preserves_indexes (db : DbState) (k v : String)
    (h : db.segments ≠ []) :
    (doPutF true k v db).2 = .error .ioError ∧
    (doPutF true k v db).1.index = db.index ∧
    ((doPutF true k v db).1.segments.map segment.index = db.segments.map segment.index ∨
     (doPutF true k v db).1.segments.map segment.index = db.segments.map segment.index ++ [[]]) := by
  unfold doPutF
  cases hl : lastSeg db.segments with
  | none => exact absurd (lastSeg_eq_none hl) h
  | some out0 =>
    simp only [hl]
    by_cases hroll : db.maxSize < out0.size + encLen ⟨k, v⟩
    · rw [if_pos hroll, createNewSegment_nonempty db h]
      refine ⟨?_, ?_, Or.inr ?_⟩ <;>
        simp [doPutAppend, lastSeg_snoc]
    · rw [if_neg hroll]
      refine ⟨?_, ?_, Or.inl ?_⟩ <;>
        simp [doPutAppend, hl]

/-- Witness for C7 at the concrete store `dbTrace2`. -/
theorem doPut_write_error_preserves_indexes_witness :
    dbTrace2.segments ≠ [] ∧ (doPutF true "x" "y" dbTrace2).1.index = dbTrace2.index :=
  ⟨by decide, (doPut_write_error_preserves_indexes dbTrace2 "x" "y" (by decide)).2.1⟩

/-- C9 (amended): `Close` is idempotent — the second call has no
effect and returns success — and after the first `Close` a `Get` of
any key fails; but not EVERY operation fails: `Size` succeeds,
returning 0 with a nil error over the emptied segment list.  (`Put`
after close is not modelled: the writer goroutine has exited, so the
send on `writeChan` blocks forever instead of returning an error.) -/
theorem close_idempotent_get_fails_size_zero (db : DbState) (k : String)
    (h : db.closed = false) :
    close (close db).1 = ((close db).1, Except.ok ()) ∧
    (∃ e, get (close db).1 k = Except.error e) ∧
    size (close db).1 = Except.ok 0 := by
  have h1 : (close db).1 = { db with segments := [], closed := true } := by
    simp [close, h]
  refine ⟨?_, ?_, ?_⟩
  · rw [h1]
    simp [close]
  · rw [h1]
    cases hl : alookup k db.index with
    | none => exact ⟨.notFound, get_notFound _ k hl⟩
    | some loc =>
      refine ⟨.segmentNotFound loc.segID, ?_⟩
      unfold get
      simp only [hl, findSeg]
  · rw [h1]
    simp [size]

/-- Witness for C9's amended theorem at the concrete store `dbRoll`. -/
theorem close_idempotent_get_fails_size_zero_witness :
    dbRoll.closed = false ∧
    close (close dbRoll).1 = ((close dbRoll).1, Except.ok ()) ∧
    size (close dbRoll).1 = Except.ok 0 :=
  ⟨rfl, (close_idempotent_get_fails_size_zero dbRoll "k" rfl).1,
        (close_idempotent_get_fails_size_zero dbRoll "k" rfl).2.2⟩

/-- C10: the first `Close` empties the segment list, and `Size` called
afterwards sums over that empty list: it returns 0 with a nil error
for every prior store content, rather than a closed-store error. -/
theorem size_after_close_returns_zero (db : DbState) (h : db.closed = false) :
    (close db).1.segments = [] ∧ size (close db).1 = Except.ok 0 := by
  simp [close, h, size]

/-- Witness for C10 at the concrete store `dbTrace1`. -/
theorem size_after_close_returns_zero_witness :
    dbTrace1.closed = false ∧ size (close dbTrace1).1 = Except.ok 0 :=
  ⟨rfl, (size_after_close_returns_zero dbTrace1 rfl).2⟩

end KV
